import Mathlib

/-!
Verification of the CSQLite shim (`Sources/CSQLite/shim.h`) and of the
snapshot-isolated WAL storage engine designed in the specification.

Part 1 embeds the C shim: each SQLite C-API entry point the shim calls is
modelled as an explicit state transformer returning the updated state and the
integer result code, and each shim wrapper is the literal composition the C
source performs (discarding result codes, since the wrappers return `void`).
The preprocessor conditions (`SQLITE_VERSION_NUMBER`, `SQLITE_ENABLE_SNAPSHOT`)
become explicit parameters.

Part 2 models, from the specification's own design (no such code exists in the
repository), the WAL frame format, crash recovery, the snapshot manager and
its compare/release operations.
-/

namespace CSQLiteShim

/-- SQLite result code `SQLITE_OK`. -/
def SQLITE_OK : Int := 0

/-- SQLite result code `SQLITE_ERROR`. -/
def SQLITE_ERROR : Int := 1

/-- SQLite result code `SQLITE_MISUSE`: `sqlite3_config` returns it when
called after the library has been initialized. -/
def SQLITE_MISUSE : Int := 21

/-- The `SQLITE_CONFIG_LOG` verb of `sqlite3_config`. -/
def SQLITE_CONFIG_LOG : Nat := 16

/-- The `SQLITE_DBCONFIG_DQS_DML` verb of `sqlite3_db_config`. -/
def SQLITE_DBCONFIG_DQS_DML : Nat := 1013

/-- The `SQLITE_DBCONFIG_DQS_DDL` verb of `sqlite3_db_config`. -/
def SQLITE_DBCONFIG_DQS_DDL : Nat := 1014

/-- The version threshold `3029000` in the shim's
`#if SQLITE_VERSION_NUMBER >= 3029000`. -/
def DQS_VERSION : Nat := 3029000

/-- State of one `sqlite3 *` database handle, as far as the shim touches it:
the two double-quoted-string-literal parsing flags, plus the page store and
WAL state that `sqlite3_db_config` must leave alone. -/
structure DbState where
  dqs_ddl : Int
  dqs_dml : Int
  pageStore : List (Nat × List Nat)
  walFile : List Nat
deriving Repr, DecidableEq

/-- `sqlite3_db_config(db, op, value, 0)` for the configuration verbs the shim
uses: a recognized DQS verb sets the corresponding parser flag and returns
`SQLITE_OK`; an unrecognized verb changes nothing and returns `SQLITE_ERROR`.
Page-store and WAL state are never touched by these verbs. -/
def sqlite3_db_config (db : DbState) (op : Nat) (value : Int) : DbState × Int :=
  if op = SQLITE_DBCONFIG_DQS_DDL then ({ db with dqs_ddl := value }, SQLITE_OK)
  else if op = SQLITE_DBCONFIG_DQS_DML then ({ db with dqs_dml := value }, SQLITE_OK)
  else (db, SQLITE_ERROR)

/-- Process-wide SQLite configuration state reached through `sqlite3_config`:
whether the library is already initialized (after which `sqlite3_config` is
refused with `SQLITE_MISUSE`), the registered error-log callback (an opaque
identifier, `none` for NULL) and its context argument (`0` for NULL). -/
structure GlobalConfig where
  isInit : Bool
  logCb : Option Nat
  logArg : Int
deriving Repr, DecidableEq

/-- `sqlite3_config(SQLITE_CONFIG_LOG, callback, arg)`: before initialization
it installs the callback and its context argument and returns `SQLITE_OK`;
after initialization it changes nothing and returns `SQLITE_MISUSE`. -/
def sqlite3_config_log (g : GlobalConfig) (cb : Option Nat) (arg : Int) :
    GlobalConfig × Int :=
  if g.isInit then (g, SQLITE_MISUSE)
  else ({ g with logCb := cb, logArg := arg }, SQLITE_OK)

/-- Shim wrapper `registerErrorLogCallback(callback)`: the single call
`sqlite3_config(SQLITE_CONFIG_LOG, callback, 0)`, result code discarded
(the wrapper returns `void`). -/
def registerErrorLogCallback (g : GlobalConfig) (cb : Option Nat) : GlobalConfig :=
  (sqlite3_config_log g cb 0).1

/-- One delivery to the registered error-log callback: SQLite invokes the
callback with the context pointer given at registration, the error code and
the message. -/
structure LogEvent where
  pArg : Int
  iErrCode : Int
  zMsg : String
deriving Repr, DecidableEq

/-- Invoking the error log: when a callback is registered it receives the
stored context argument together with the error code and message; with no
callback registered nothing is delivered. -/
def invokeErrorLog (g : GlobalConfig) (iErrCode : Int) (zMsg : String) :
    Option LogEvent :=
  g.logCb.map (fun _ => ⟨g.logArg, iErrCode, zMsg⟩)

/-- Shim wrapper `disableDoubleQuotedStringLiterals(db)`.
For `SQLITE_VERSION_NUMBER >= 3029000` it is the two calls
`sqlite3_db_config(db, SQLITE_DBCONFIG_DQS_DDL, 0, NULL)` then
`sqlite3_db_config(db, SQLITE_DBCONFIG_DQS_DML, 0, NULL)`, result codes
discarded; for older versions the `#else` branch is an empty body. -/
def disableDoubleQuotedStringLiterals (v : Nat) (db : DbState) : DbState :=
  if DQS_VERSION ≤ v then
    (sqlite3_db_config (sqlite3_db_config db SQLITE_DBCONFIG_DQS_DDL 0).1
      SQLITE_DBCONFIG_DQS_DML 0).1
  else db

/-- Shim wrapper `enableDoubleQuotedStringLiterals(db)`: same shape as
`disableDoubleQuotedStringLiterals` with flag value `1`. -/
def enableDoubleQuotedStringLiterals (v : Nat) (db : DbState) : DbState :=
  if DQS_VERSION ≤ v then
    (sqlite3_db_config (sqlite3_db_config db SQLITE_DBCONFIG_DQS_DDL 1).1
      SQLITE_DBCONFIG_DQS_DML 1).1
  else db

/-- A top-level declaration contributed by the shim header: either the opaque
`sqlite3_snapshot` struct (with its size in bytes) or a function declared
without a definition. -/
inductive ShimDecl where
  | snapshotStruct (sizeBytes : Nat)
  | functionDecl (name : String) (hasDefinition : Bool)
deriving Repr, DecidableEq

/-- The snapshot declarations the shim header contributes, as a function of
whether the system headers define `SQLITE_ENABLE_SNAPSHOT`: inside
`#ifndef SQLITE_ENABLE_SNAPSHOT` the header declares the opaque 48-byte
`sqlite3_snapshot` struct (`unsigned char hidden[48]`) and five snapshot
functions, in source order; otherwise it contributes nothing. -/
def shimSnapshotDecls (enableSnapshotDefined : Bool) : List ShimDecl :=
  if enableSnapshotDefined then []
  else
    [ ShimDecl.snapshotStruct 48,
      ShimDecl.functionDecl "sqlite3_snapshot_get" false,
      ShimDecl.functionDecl "sqlite3_snapshot_open" false,
      ShimDecl.functionDecl "sqlite3_snapshot_free" false,
      ShimDecl.functionDecl "sqlite3_snapshot_cmp" false,
      ShimDecl.functionDecl "sqlite3_snapshot_recover" false ]

/-- The names of the functions the shim's snapshot block declares. -/
def shimSnapshotFunctionNames (enableSnapshotDefined : Bool) : List String :=
  (shimSnapshotDecls enableSnapshotDefined).filterMap fun d =>
    match d with
    | ShimDecl.functionDecl n _ => some n
    | ShimDecl.snapshotStruct _ => none

end CSQLiteShim

namespace SpecModel

/-- Modelled from the spec: a WAL frame — one versioned page image with its
`PageNumber`, the `CommitSequence` of the transaction that produced it, and
its raw bytes. -/
structure Frame where
  pageNumber : Nat
  commitSequence : Nat
  bytes : List Nat
deriving Repr, DecidableEq

/-- Modelled from the spec: `frameIndex.lookup(PageNumber, CommitSequence)`
returns the newest frame for that page with `CommitSequence <= boundary`,
else none. The WAL is append-only, so the newest such frame is the last
matching one in log order. -/
def frameLookup (wal : List Frame) (p : Nat) (boundary : Nat) : Option Frame :=
  (wal.filter fun f => f.pageNumber = p ∧ f.commitSequence ≤ boundary).getLast?

/-- Modelled from the spec: the mutable shared engine state the commit path
touches — the append-only WAL and the process-wide `ReadMark` tracking the
highest committed `CommitSequence`. -/
structure EngineState where
  wal : List Frame
  readMark : Nat
deriving Repr, DecidableEq

/-- The frames appended for one commit: one frame per buffered page image,
all carrying the commit's sequence number. -/
def framesOfCommit (seq : Nat) (pages : List (Nat × List Nat)) : List Frame :=
  pages.map fun pb => ⟨pb.1, seq, pb.2⟩

/-- Modelled from the spec: `commit()` assigns the next `CommitSequence`,
appends the writer's buffered page images to the WAL via `appendFrames`, then
advances the `ReadMark`. -/
def commitTx (s : EngineState) (pages : List (Nat × List Nat)) : EngineState :=
  { wal := s.wal ++ framesOfCommit (s.readMark + 1) pages
    readMark := s.readMark + 1 }

/-- A sequence of writer commits applied in order. -/
def runCommits (s : EngineState) (txs : List (List (Nat × List Nat))) : EngineState :=
  txs.foldl commitTx s

/-- Invariant of the engine state: every WAL frame was produced by a commit
at or below the current `ReadMark`. -/
def walBounded (s : EngineState) : Prop :=
  ∀ f ∈ s.wal, f.commitSequence ≤ s.readMark

instance (s : EngineState) : Decidable (walBounded s) := by
  unfold walBounded; infer_instance

/-- Modelled from the spec: a Snapshot is an opaque handle capturing a
`CommitSequence` boundary. -/
structure Snapshot where
  boundary : Nat
deriving Repr, DecidableEq

/-- Modelled from the spec: the result of `compare(Snapshot, Snapshot)`. -/
inductive SnapshotOrder where
  | Before
  | Same
  | After
deriving Repr, DecidableEq

/-- Modelled from the spec: `compare(Snapshot, Snapshot)` orders snapshots by
their boundary `CommitSequence`. -/
def compare (s1 s2 : Snapshot) : SnapshotOrder :=
  if s1.boundary < s2.boundary then SnapshotOrder.Before
  else if s1.boundary = s2.boundary then SnapshotOrder.Same
  else SnapshotOrder.After

/-- Modelled from the spec: `capture()` reads the current `ReadMark` and
returns a handle pinning that `CommitSequence`. -/
def captureSnapshot (s : EngineState) : Snapshot :=
  ⟨s.readMark⟩

/-- Modelled from the spec: errors of the snapshot manager — releasing an
already-released handle, or opening a token whose boundary was checkpointed
past retention. -/
inductive SnapError where
  | doubleRelease
  | invalidToken
deriving Repr, DecidableEq

/-- Modelled from the spec: the snapshot manager's process-wide registry —
live handles (identifier paired with boundary), per-boundary reference
counts, the next fresh handle identifier and the current `ReadMark`. -/
structure SnapMgr where
  handles : List (Nat × Nat)
  refcounts : List (Nat × Nat)
  nextId : Nat
  readMark : Nat
deriving Repr, DecidableEq

/-- First value bound to a key in an association list. -/
def lookupAssoc (l : List (Nat × Nat)) (k : Nat) : Option Nat :=
  (l.find? fun kv => kv.1 = k).map (·.2)

/-- Increment the reference count of a boundary, creating the entry at count
one when absent. -/
def bumpRefcount : List (Nat × Nat) → Nat → List (Nat × Nat)
  | [], b => [(b, 1)]
  | kv :: rest, b =>
    if kv.1 = b then (kv.1, kv.2 + 1) :: rest else kv :: bumpRefcount rest b

/-- Decrement the reference count of a boundary (first matching entry). -/
def decRefcount : List (Nat × Nat) → Nat → List (Nat × Nat)
  | [], _ => []
  | kv :: rest, b =>
    if kv.1 = b then (kv.1, kv.2 - 1) :: rest else kv :: decRefcount rest b

/-- The reference count the registry records for a boundary (zero when no
entry exists). -/
def refcountOf (m : SnapMgr) (b : Nat) : Nat :=
  (lookupAssoc m.refcounts b).getD 0

/-- Modelled from the spec: `capture()` at the manager level — registers a
fresh live handle at the current `ReadMark` boundary and increments that
boundary's reference count; returns the handle identifier. -/
def captureMgr (m : SnapMgr) : SnapMgr × Nat :=
  ({ m with
      handles := (m.nextId, m.readMark) :: m.handles
      refcounts := bumpRefcount m.refcounts m.readMark
      nextId := m.nextId + 1 }, m.nextId)

/-- Modelled from the spec: `release(Snapshot)` unpins a live handle,
decrementing its boundary's reference count once; releasing a handle that is
not live (already released) is rejected with a defined error and changes
nothing. -/
def releaseSnapshot (m : SnapMgr) (i : Nat) : Except SnapError SnapMgr :=
  match lookupAssoc m.handles i with
  | none => Except.error SnapError.doubleRelease
  | some b =>
    Except.ok
      { m with
        handles := m.handles.filter fun kv => kv.1 ≠ i
        refcounts := decRefcount m.refcounts b }

/-- Little-endian encoding of a value on a fixed number of bytes. -/
def toBytes : Nat → Nat → List Nat
  | 0, _ => []
  | w + 1, v => v % 256 :: toBytes w (v / 256)

/-- Value of a little-endian byte list. -/
def fromBytes : List Nat → Nat
  | [] => 0
  | b :: bs => b + 256 * fromBytes bs

/-- Modelled from the spec: the 32-bit check over a byte sequence used for
`FrameChecksum` and the commit marker's check (the spec fixes a 4-byte check
but not the function; a 32-bit sum stands in for it). -/
def checksum (bs : List Nat) : Nat :=
  (bs.foldl (fun a b => a + b) 0) % 4294967296

/-- Modelled from the spec: on-disk size of one WAL frame record —
`[PageNumber:4][CommitSequence:8][PageBytes:N][FrameChecksum:4]` plus the
commit-marker flag byte and its 4-byte commit check. -/
def recordSize (pageSize : Nat) : Nat := pageSize + 21

/-- The checked portion of a frame record: page number, commit sequence and
page bytes. -/
def frameBody (f : Frame) : List Nat :=
  toBytes 4 f.pageNumber ++ toBytes 8 f.commitSequence ++ f.bytes

/-- Modelled from the spec: the encoding of one WAL frame record — the frame
body, its 4-byte checksum, the commit-marker flag byte, and the 4-byte commit
check (meaningful only on marker frames). -/
def encodeRecord (f : Frame) (marker : Bool) (commitCheck : Nat) : List Nat :=
  frameBody f ++ toBytes 4 (checksum (frameBody f)) ++
    [if marker then 1 else 0] ++ toBytes 4 commitCheck

/-- Modelled from the spec: the commit marker's check covers all frames of
the commit since the previous marker. -/
def commitCheckOf (fs : List Frame) : Nat :=
  checksum (fs.map frameBody).flatten

/-- Encode the frames of one commit, the last record carrying the marker flag
and the commit's check. -/
def encodeCommitRec (check : Nat) : List Frame → List Nat
  | [] => []
  | [f] => encodeRecord f true check
  | f :: rest => encodeRecord f false 0 ++ encodeCommitRec check rest

/-- Modelled from the spec: `appendFrames` writes all frame payloads of one
commit followed by a single trailing commit marker validated by checksum. -/
def encodeCommit (fs : List Frame) : List Nat :=
  encodeCommitRec (commitCheckOf fs) fs

/-- The byte content of the WAL file after a sequence of commits. -/
def encodeWal (commits : List (List Frame)) : List Nat :=
  (commits.map encodeCommit).flatten

/-- Decode the fields of one frame record, verifying the frame checksum:
the frame, the commit-marker flag, and the stored commit check. -/
def parseRecord (pageSize : Nat) (r : List Nat) : Option (Frame × Bool × Nat) :=
  if fromBytes ((r.drop (12 + pageSize)).take 4) = checksum (r.take (12 + pageSize))
  then
    some (⟨fromBytes (r.take 4), fromBytes ((r.drop 4).take 8),
           (r.drop 12).take pageSize⟩,
          decide ((r.drop (16 + pageSize)).take 1 = [1]),
          fromBytes ((r.drop (17 + pageSize)).take 4))
  else none

/-- Modelled from the spec: recovery replays whole records from the start of
the WAL; frames accumulate as pending until a marker record whose commit
check verifies makes the whole commit visible; a short tail, a failed frame
checksum, or a failed commit check ends recovery, discarding any pending
(uncommitted) frames. -/
def recoverLoop (pageSize : Nat) (bs : List Nat)
    (pending recovered : List Frame) : List Frame :=
  if h : recordSize pageSize ≤ bs.length then
    match parseRecord pageSize (bs.take (recordSize pageSize)) with
    | none => recovered
    | some (f, marker, cchk) =>
      if marker then
        if cchk = commitCheckOf (pending ++ [f]) then
          recoverLoop pageSize (bs.drop (recordSize pageSize)) []
            (recovered ++ (pending ++ [f]))
        else recovered
      else
        recoverLoop pageSize (bs.drop (recordSize pageSize))
          (pending ++ [f]) recovered
  else recovered
termination_by bs.length
decreasing_by
  all_goals simp only [List.length_drop, recordSize] at h ⊢
  all_goals omega

/-- Modelled from the spec: recovery on (re)opening the WAL file. -/
def recoverWal (pageSize : Nat) (bs : List Nat) : List Frame :=
  recoverLoop pageSize bs [] []

/-- Well-formed frame for a given page size: field values fit their on-disk
widths and the page image has exactly the page size. -/
def wfFrame (pageSize : Nat) (f : Frame) : Prop :=
  f.pageNumber < 256 ^ 4 ∧ f.commitSequence < 256 ^ 8 ∧
    f.bytes.length = pageSize

instance (pageSize : Nat) (f : Frame) : Decidable (wfFrame pageSize f) := by
  unfold wfFrame; infer_instance

/-- Well-formed commit: nonempty, with well-formed frames. -/
def wfCommit (pageSize : Nat) (c : List Frame) : Prop :=
  c ≠ [] ∧ ∀ f ∈ c, wfFrame pageSize f

instance (pageSize : Nat) (c : List Frame) : Decidable (wfCommit pageSize c) := by
  unfold wfCommit; infer_instance

/-- The longest prefix of the committed transactions whose complete encodings
(frames and trailing marker) fit within the first `n` bytes of the WAL. -/
def commitsWithin : List (List Frame) → Nat → List (List Frame)
  | [], _ => []
  | c :: cs, n =>
    if (encodeCommit c).length ≤ n then
      c :: commitsWithin cs (n - (encodeCommit c).length)
    else []

end SpecModel

namespace CSQLiteShim

end CSQLiteShim

namespace SpecModel

theorem runCommits_nil (s : EngineState) : runCommits s [] = s := rfl

theorem runCommits_cons (s : EngineState) (t : List (Nat × List Nat))
    (ts : List (List (Nat × List Nat))) :
    runCommits s (t :: ts) = runCommits (commitTx s t) ts := rfl

theorem framesOfCommit_seq (seq : Nat) (pgs : List (Nat × List Nat)) :
    ∀ f ∈ framesOfCommit seq pgs, f.commitSequence = seq := by
  intro f hf
  simp only [framesOfCommit, List.mem_map] at hf
  obtain ⟨pb, -, rfl⟩ := hf
  rfl

theorem frameLookup_append_high (wal new : List Frame) (p B : Nat)
    (h : ∀ f ∈ new, B < f.commitSequence) :
    frameLookup (wal ++ new) p B = frameLookup wal p B := by
  unfold frameLookup
  rw [List.filter_append]
  have hnil :
      List.filter (fun f => decide (f.pageNumber = p ∧ f.commitSequence ≤ B)) new
        = [] := by
    rw [List.filter_eq_nil_iff]
    intro f hf
    simp only [decide_eq_true_eq, not_and]
    intro _
    have := h f hf
    omega
  rw [hnil, List.append_nil]

theorem commitTx_bounded (s : EngineState) (pgs : List (Nat × List Nat))
    (h : walBounded s) : walBounded (commitTx s pgs) := by
  intro f hf
  rcases List.mem_append.mp hf with hf | hf
  · exact Nat.le_trans (h f hf) (Nat.le_succ _)
  · exact Nat.le_of_eq (framesOfCommit_seq _ _ f hf)

theorem runCommits_readMark_le (s : EngineState)
    (txs : List (List (Nat × List Nat))) :
    s.readMark ≤ (runCommits s txs).readMark := by
  induction txs generalizing s with
  | nil => exact Nat.le_refl _
  | cons t ts ih =>
    rw [runCommits_cons]
    exact Nat.le_trans (Nat.le_succ _) (ih (commitTx s t))

theorem frameLookup_runCommits (B : Nat) (txs : List (List (Nat × List Nat))) :
    ∀ s : EngineState, walBounded s → B ≤ s.readMark → ∀ p,
      frameLookup (runCommits s txs).wal p B = frameLookup s.wal p B := by
  induction txs with
  | nil => intro s _ _ p; rfl
  | cons t ts ih =>
    intro s hb hB p
    rw [runCommits_cons,
      ih (commitTx s t) (commitTx_bounded s t hb)
        (Nat.le_trans hB (Nat.le_succ _)) p]
    exact frameLookup_append_high s.wal _ p B fun f hf => by
      have := framesOfCommit_seq _ _ f hf
      omega

theorem runCommits_new_frames (txs : List (List (Nat × List Nat))) :
    ∀ (s : EngineState) (f : Frame), f ∈ (runCommits s txs).wal →
      f ∈ s.wal ∨ s.readMark < f.commitSequence := by
  induction txs with
  | nil => intro s f hf; exact Or.inl hf
  | cons t ts ih =>
    intro s f hf
    rw [runCommits_cons] at hf
    rcases ih (commitTx s t) f hf with hmem | hgt
    · rcases List.mem_append.mp hmem with h1 | h2
      · exact Or.inl h1
      · right
        have := framesOfCommit_seq _ _ f h2
        omega
    · right
      have : (commitTx s t).readMark = s.readMark + 1 := rfl
      omega

theorem frameLookup_mem_le (wal : List Frame) (p B : Nat) (f : Frame)
    (h : frameLookup wal p B = some f) :
    f ∈ wal ∧ f.pageNumber = p ∧ f.commitSequence ≤ B := by
  unfold frameLookup at h
  obtain ⟨ys, hys⟩ := List.getLast?_eq_some_iff.mp h
  have hmem : f ∈ List.filter
      (fun f => decide (f.pageNumber = p ∧ f.commitSequence ≤ B)) wal := by
    rw [hys]
    exact List.mem_append.mpr (Or.inr (List.mem_singleton.mpr rfl))
  have h2 := List.mem_filter.mp hmem
  simp only [decide_eq_true_eq] at h2
  exact ⟨h2.1, h2.2.1, h2.2.2⟩

/-- C5: a Snapshot captured at boundary S before any further commits keeps
observing exactly the WAL content at capture time: page reads at S are
unchanged by later commits, every frame a read at S returns has
`CommitSequence <= S`, and every frame appended after the capture has
`CommitSequence > S` (so a frame of commit K or later is never observed). -/
theorem snapshot_isolation (s : EngineState) (txs : List (List (Nat × List Nat)))
    (p : Nat) (hb : walBounded s) :
    frameLookup (runCommits s txs).wal p (captureSnapshot s).boundary =
      frameLookup s.wal p (captureSnapshot s).boundary ∧
    (∀ f, frameLookup (runCommits s txs).wal p (captureSnapshot s).boundary =
        some f → f.commitSequence ≤ (captureSnapshot s).boundary) ∧
    (∀ f ∈ (runCommits s txs).wal, f ∉ s.wal →
      (captureSnapshot s).boundary < f.commitSequence) := by
  refine ⟨?_, ?_, ?_⟩
  · exact frameLookup_runCommits s.readMark txs s hb (Nat.le_refl _) p
  · intro f hf
    exact (frameLookup_mem_le _ _ _ f hf).2.2
  · intro f hf hnot
    rcases runCommits_new_frames txs s f hf with h1 | h2
    · exact absurd h1 hnot
    · exact h2

/-- Witness for C5: one committed frame for page 0, a snapshot at its
boundary, then a later commit overwriting page 0. -/
theorem snapshot_isolation_witness :
    frameLookup (runCommits ⟨[⟨0, 1, [65]⟩], 1⟩ [[(0, [66])]]).wal 0
        (captureSnapshot ⟨[⟨0, 1, [65]⟩], 1⟩).boundary =
      frameLookup [⟨0, 1, [65]⟩] 0
        (captureSnapshot ⟨[⟨0, 1, [65]⟩], 1⟩).boundary :=
  (snapshot_isolation ⟨[⟨0, 1, [65]⟩], 1⟩ [[(0, [66])]] 0 (by decide)).1

/-- C7: `compare` returns Before, Same or After exactly according to the
numeric order of the two boundary `CommitSequence` values, is antisymmetric
and transitive (a total order), and agrees with commit order: a snapshot
captured after further commits never compares Before one captured earlier. -/
theorem compare_orders_by_boundary :
    (∀ s1 s2 : Snapshot,
      (compare s1 s2 = SnapshotOrder.Before ↔ s1.boundary < s2.boundary) ∧
      (compare s1 s2 = SnapshotOrder.Same ↔ s1.boundary = s2.boundary) ∧
      (compare s1 s2 = SnapshotOrder.After ↔ s2.boundary < s1.boundary)) ∧
    (∀ s1 s2 : Snapshot,
      compare s1 s2 = SnapshotOrder.Before ↔
        compare s2 s1 = SnapshotOrder.After) ∧
    (∀ s1 s2 s3 : Snapshot, compare s1 s2 = SnapshotOrder.Before →
      compare s2 s3 = SnapshotOrder.Before →
      compare s1 s3 = SnapshotOrder.Before) ∧
    (∀ (e : EngineState) (txs : List (List (Nat × List Nat))),
      compare (captureSnapshot (runCommits e txs)) (captureSnapshot e) ≠
        SnapshotOrder.Before) := by
  have key : ∀ s1 s2 : Snapshot,
      (compare s1 s2 = SnapshotOrder.Before ↔ s1.boundary < s2.boundary) ∧
      (compare s1 s2 = SnapshotOrder.Same ↔ s1.boundary = s2.boundary) ∧
      (compare s1 s2 = SnapshotOrder.After ↔ s2.boundary < s1.boundary) := by
    intro s1 s2
    unfold compare
    split_ifs with h1 h2
    · exact ⟨iff_of_true rfl h1, iff_of_false (by decide) (by omega),
        iff_of_false (by decide) (by omega)⟩
    · exact ⟨iff_of_false (by decide) (by omega), iff_of_true rfl h2,
        iff_of_false (by decide) (by omega)⟩
    · exact ⟨iff_of_false (by decide) (by omega),
        iff_of_false (by decide) (by omega), iff_of_true rfl (by omega)⟩
  refine ⟨key, ?_, ?_, ?_⟩
  · intro s1 s2
    exact ((key s1 s2).1).trans ((key s2 s1).2.2).symm
  · intro s1 s2 s3 h12 h23
    exact (key s1 s3).1.mpr
      (Nat.lt_trans ((key s1 s2).1.mp h12) ((key s2 s3).1.mp h23))
  · intro e txs h
    exact absurd ((key _ _).1.mp h)
      (Nat.not_lt.mpr (runCommits_readMark_le e txs))

theorem lookupAssoc_filter_ne (l : List (Nat × Nat)) (i : Nat) :
    lookupAssoc (l.filter fun kv => kv.1 ≠ i) i = none := by
  unfold lookupAssoc
  have hnone :
      List.find? (fun kv => decide (kv.1 = i))
        (l.filter fun kv => decide (kv.1 ≠ i)) = none := by
    rw [List.find?_eq_none]
    intro x hx
    have hne := (List.mem_filter.mp hx).2
    simp only [decide_eq_true_eq] at hne ⊢
    exact hne
  rw [hnone]
  rfl

theorem lookupAssoc_decRefcount (l : List (Nat × Nat)) (b : Nat) :
    lookupAssoc (decRefcount l b) b = (lookupAssoc l b).map (· - 1) := by
  induction l with
  | nil => rfl
  | cons kv rest ih =>
    by_cases h : kv.1 = b
    · subst h
      unfold lookupAssoc
      rw [show decRefcount (kv :: rest) kv.1 = (kv.1, kv.2 - 1) :: rest from by
        simp [decRefcount]]
      rw [List.find?_cons_of_pos _ (by simp), List.find?_cons_of_pos _ (by simp)]
      rfl
    · simp only [decRefcount, if_neg h]
      unfold lookupAssoc
      rw [List.find?_cons_of_neg _ (by simp [h]),
        List.find?_cons_of_neg _ (by simp [h])]
      exact ih

/-- C8: once a Snapshot handle has been released, releasing it again is
rejected with the defined `doubleRelease` error (producing no state), and
the successful release decremented its boundary's reference count exactly
once — no double decrement can occur. -/
theorem release_no_double_free (m m' : SnapMgr) (i : Nat)
    (hok : releaseSnapshot m i = Except.ok m') :
    releaseSnapshot m' i = Except.error SnapError.doubleRelease ∧
    ∀ b, lookupAssoc m.handles i = some b →
      refcountOf m' b = refcountOf m b - 1 := by
  cases hsome : lookupAssoc m.handles i with
  | none =>
    unfold releaseSnapshot at hok
    rw [hsome] at hok
    exact absurd hok (by simp)
  | some b0 =>
    have hshape : releaseSnapshot m i = Except.ok
        { m with
          handles := m.handles.filter fun kv => kv.1 ≠ i
          refcounts := decRefcount m.refcounts b0 } := by
      unfold releaseSnapshot
      rw [hsome]
    have hm' : m' =
        { m with
          handles := m.handles.filter fun kv => kv.1 ≠ i
          refcounts := decRefcount m.refcounts b0 } :=
      Except.ok.inj (hok.symm.trans hshape)
    constructor
    · rw [hm']
      unfold releaseSnapshot
      have hnone : lookupAssoc
          (({ m with
              handles := m.handles.filter fun kv => kv.1 ≠ i
              refcounts := decRefcount m.refcounts b0 } : SnapMgr)).handles i
            = none :=
        lookupAssoc_filter_ne m.handles i
      rw [hnone]
    · intro b hb
      have hb0 : b0 = b := Option.some.inj hb
      subst hb0
      rw [hm']
      show (lookupAssoc (decRefcount m.refcounts b0) b0).getD 0 =
        (lookupAssoc m.refcounts b0).getD 0 - 1
      rw [lookupAssoc_decRefcount]
      cases lookupAssoc m.refcounts b0 <;> simp

/-- Witness for C8: capture one snapshot at boundary 5, release it, release
it again. -/
theorem release_no_double_free_witness :
    releaseSnapshot ⟨[], [(5, 0)], 1, 5⟩ 0 =
      Except.error SnapError.doubleRelease :=
  (release_no_double_free (captureMgr ⟨[], [], 0, 5⟩).1 ⟨[], [(5, 0)], 1, 5⟩ 0
    rfl).1

theorem toBytes_length : ∀ w v : Nat, (toBytes w v).length = w
  | 0, _ => rfl
  | w + 1, v => by simp [toBytes, toBytes_length w]

theorem fromBytes_toBytes : ∀ w v : Nat, fromBytes (toBytes w v) = v % 256 ^ w
  | 0, v => by simp [toBytes, fromBytes, Nat.mod_one]
  | w + 1, v => by
    rw [toBytes, fromBytes, fromBytes_toBytes w]
    rw [pow_succ', Nat.mod_mul]

theorem drop_split (l : List Nat) (a b : Nat) :
    l.drop (a + b) = (l.drop a).drop b := by
  rw [List.drop_drop, Nat.add_comm]

theorem take_len_add (x y : List Nat) (n m : Nat) (h : x.length = n) :
    (x ++ y).take (n + m) = x ++ y.take m := by
  subst h
  rw [List.take_append_eq_append_take,
    List.take_of_length_le (Nat.le_add_right _ _), Nat.add_sub_cancel_left]

theorem fromBytes_toBytes_lt (w v : Nat) (h : v < 256 ^ w) :
    fromBytes (toBytes w v) = v := by
  rw [fromBytes_toBytes, Nat.mod_eq_of_lt h]

theorem checksum_lt (bs : List Nat) : checksum bs < 256 ^ 4 := by
  unfold checksum
  have h4 : (256 : Nat) ^ 4 = 4294967296 := by norm_num
  rw [h4]
  exact Nat.mod_lt _ (by norm_num)

theorem frameBody_length (pageSize : Nat) (f : Frame)
    (h3 : f.bytes.length = pageSize) : (frameBody f).length = 12 + pageSize := by
  simp [frameBody, toBytes_length, h3]
  omega

theorem encodeRecord_length (pageSize : Nat) (f : Frame) (marker : Bool)
    (cchk : Nat) (h3 : f.bytes.length = pageSize) :
    (encodeRecord f marker cchk).length = recordSize pageSize := by
  simp [encodeRecord, frameBody, toBytes_length, recordSize, h3]
  omega

theorem parseRecord_encodeRecord (pageSize : Nat) (f : Frame) (marker : Bool)
    (cchk : Nat) (h1 : f.pageNumber < 256 ^ 4) (h2 : f.commitSequence < 256 ^ 8)
    (h3 : f.bytes.length = pageSize) (hc : cchk < 256 ^ 4) :
    parseRecord pageSize (encodeRecord f marker cchk) = some (f, marker, cchk) := by
  have lA : (toBytes 4 f.pageNumber).length = 4 := toBytes_length 4 _
  have lS : (toBytes 8 f.commitSequence).length = 8 := toBytes_length 8 _
  have lC : (toBytes 4 (checksum (frameBody f))).length = 4 := toBytes_length 4 _
  have lBody : (frameBody f).length = 12 + pageSize := frameBody_length pageSize f h3
  have hr : encodeRecord f marker cchk =
      toBytes 4 f.pageNumber ++ (toBytes 8 f.commitSequence ++ (f.bytes ++
        (toBytes 4 (checksum (frameBody f)) ++ ([if marker then 1 else 0] ++
          toBytes 4 cchk)))) := by
    simp [encodeRecord, frameBody, List.append_assoc]
  have e1 : (encodeRecord f marker cchk).take 4 = toBytes 4 f.pageNumber := by
    rw [hr]
    exact List.take_left' lA
  have e2 : ((encodeRecord f marker cchk).drop 4).take 8
      = toBytes 8 f.commitSequence := by
    rw [hr, List.drop_left' lA]
    exact List.take_left' lS
  have e3 : ((encodeRecord f marker cchk).drop 12).take pageSize = f.bytes := by
    rw [hr, show (12 : Nat) = 4 + 8 from rfl, drop_split, List.drop_left' lA,
      List.drop_left' lS]
    exact List.take_left' h3
  have e4 : (encodeRecord f marker cchk).take (12 + pageSize) = frameBody f := by
    rw [hr, show 12 + pageSize = 4 + (8 + pageSize) from by omega,
      take_len_add _ _ _ _ lA, take_len_add _ _ _ _ lS,
      show pageSize = pageSize + 0 from (Nat.add_zero pageSize).symm,
      take_len_add _ _ _ _ h3, List.take_zero, List.append_nil]
    simp [frameBody, List.append_assoc]
  have d12 : (encodeRecord f marker cchk).drop (12 + pageSize)
      = toBytes 4 (checksum (frameBody f)) ++ ([if marker then 1 else 0] ++
        toBytes 4 cchk) := by
    rw [hr, show 12 + pageSize = 4 + (8 + pageSize) from by omega, drop_split,
      List.drop_left' lA, drop_split, List.drop_left' lS, List.drop_left' h3]
  have e5 : ((encodeRecord f marker cchk).drop (12 + pageSize)).take 4
      = toBytes 4 (checksum (frameBody f)) := by
    rw [d12]
    exact List.take_left' lC
  have d16 : (encodeRecord f marker cchk).drop (16 + pageSize)
      = [if marker then 1 else 0] ++ toBytes 4 cchk := by
    rw [show 16 + pageSize = (12 + pageSize) + 4 from by omega, drop_split, d12]
    exact List.drop_left' lC
  have e6 : ((encodeRecord f marker cchk).drop (16 + pageSize)).take 1
      = [if marker then 1 else 0] := by
    rw [d16]
    exact List.take_left' rfl
  have d17 : (encodeRecord f marker cchk).drop (17 + pageSize)
      = toBytes 4 cchk := by
    rw [show 17 + pageSize = (16 + pageSize) + 1 from by omega, drop_split, d16]
    exact List.drop_left' rfl
  have e7 : ((encodeRecord f marker cchk).drop (17 + pageSize)).take 4
      = toBytes 4 cchk := by
    rw [d17]
    exact List.take_of_length_le (le_of_eq (toBytes_length 4 cchk))
  have eflag : decide (((encodeRecord f marker cchk).drop (16 + pageSize)).take 1
      = [1]) = marker := by
    rw [e6]
    cases marker <;> rfl
  unfold parseRecord
  rw [e5, e4, fromBytes_toBytes_lt 4 _ (checksum_lt _), if_pos rfl, e1, e2, e3,
    eflag, e7, fromBytes_toBytes_lt 4 _ h1, fromBytes_toBytes_lt 8 _ h2,
    fromBytes_toBytes_lt 4 _ hc]

theorem recoverLoop_short (pageSize : Nat) (bs : List Nat) (P R : List Frame)
    (h : bs.length < recordSize pageSize) :
    recoverLoop pageSize bs P R = R := by
  rw [recoverLoop, dif_neg (by omega)]

theorem recoverLoop_record_marker (pageSize : Nat) (f : Frame) (cchk : Nat)
    (rest : List Nat) (P R : List Frame) (h1 : f.pageNumber < 256 ^ 4)
    (h2 : f.commitSequence < 256 ^ 8) (h3 : f.bytes.length = pageSize)
    (hc : cchk < 256 ^ 4) :
    recoverLoop pageSize (encodeRecord f true cchk ++ rest) P R =
      if cchk = commitCheckOf (P ++ [f]) then
        recoverLoop pageSize rest [] (R ++ (P ++ [f]))
      else R := by
  have hlen : (encodeRecord f true cchk).length = recordSize pageSize :=
    encodeRecord_length pageSize f true cchk h3
  have hge : recordSize pageSize ≤ (encodeRecord f true cchk ++ rest).length := by
    rw [List.length_append, hlen]
    omega
  rw [recoverLoop, dif_pos hge, List.take_left' hlen, List.drop_left' hlen,
    parseRecord_encodeRecord pageSize f true cchk h1 h2 h3 hc]
  rfl

theorem recoverLoop_record_plain (pageSize : Nat) (f : Frame)
    (rest : List Nat) (P R : List Frame) (h1 : f.pageNumber < 256 ^ 4)
    (h2 : f.commitSequence < 256 ^ 8) (h3 : f.bytes.length = pageSize) :
    recoverLoop pageSize (encodeRecord f false 0 ++ rest) P R =
      recoverLoop pageSize rest (P ++ [f]) R := by
  have hlen : (encodeRecord f false 0).length = recordSize pageSize :=
    encodeRecord_length pageSize f false 0 h3
  have hge : recordSize pageSize ≤ (encodeRecord f false 0 ++ rest).length := by
    rw [List.length_append, hlen]
    omega
  rw [recoverLoop, dif_pos hge, List.take_left' hlen, List.drop_left' hlen,
    parseRecord_encodeRecord pageSize f false 0 h1 h2 h3 (by norm_num)]
  rfl

theorem recoverLoop_commitRec (pageSize : Nat) :
    ∀ fs : List Frame, fs ≠ [] → (∀ f ∈ fs, wfFrame pageSize f) →
    ∀ (P R : List Frame) (rest : List Nat) (check : Nat),
      check = commitCheckOf (P ++ fs) →
      recoverLoop pageSize (encodeCommitRec check fs ++ rest) P R =
        recoverLoop pageSize rest [] (R ++ (P ++ fs)) := by
  intro fs
  induction fs with
  | nil => intro h; exact absurd rfl h
  | cons f t ih =>
    intro _ hwf P R rest check hcheck
    obtain ⟨hf1, hf2, hf3⟩ := hwf f (List.mem_cons_self f t)
    cases t with
    | nil =>
      show recoverLoop pageSize (encodeRecord f true check ++ rest) P R = _
      rw [recoverLoop_record_marker pageSize f check rest P R hf1 hf2 hf3
        (by rw [hcheck]; exact checksum_lt _)]
      rw [if_pos hcheck]
    | cons g t' =>
      show recoverLoop pageSize
        ((encodeRecord f false 0 ++ encodeCommitRec check (g :: t')) ++ rest) P R
          = _
      rw [List.append_assoc,
        recoverLoop_record_plain pageSize f _ P R hf1 hf2 hf3]
      rw [ih (by simp) (fun x hx => hwf x (List.mem_cons_of_mem f hx))
        (P ++ [f]) R rest check (by rw [List.append_assoc]; exact hcheck)]
      simp [List.append_assoc]

theorem recoverLoop_encodeWal (pageSize : Nat) :
    ∀ commits : List (List Frame), (∀ c ∈ commits, wfCommit pageSize c) →
    ∀ R, recoverLoop pageSize (encodeWal commits) [] R = R ++ commits.flatten := by
  intro commits
  induction commits with
  | nil =>
    intro _ R
    rw [show encodeWal [] = [] from rfl,
      recoverLoop_short pageSize [] [] R
        (by simp only [List.length_nil, recordSize]; omega)]
    simp
  | cons c cs ih =>
    intro hwf R
    obtain ⟨hne, hcwf⟩ := hwf c (List.mem_cons_self c cs)
    rw [show encodeWal (c :: cs) = encodeCommit c ++ encodeWal cs from rfl,
      show encodeCommit c = encodeCommitRec (commitCheckOf c) c from rfl,
      recoverLoop_commitRec pageSize c hne hcwf [] R (encodeWal cs)
        (commitCheckOf c) (by simp),
      ih (fun x hx => hwf x (List.mem_cons_of_mem c hx)) (R ++ ([] ++ c))]
    simp [List.append_assoc]

theorem recoverLoop_truncated (pageSize : Nat) :
    ∀ fs : List Frame, (∀ f ∈ fs, wfFrame pageSize f) →
    ∀ check : Nat, check < 256 ^ 4 →
    ∀ n : Nat, n < (encodeCommitRec check fs).length →
    ∀ P R : List Frame,
      recoverLoop pageSize ((encodeCommitRec check fs).take n) P R = R := by
  intro fs
  induction fs with
  | nil =>
    intro _ check _ n hn
    simp [encodeCommitRec] at hn
  | cons f t ih =>
    intro hwf check hck n hn P R
    obtain ⟨hf1, hf2, hf3⟩ := hwf f (List.mem_cons_self f t)
    cases t with
    | nil =>
      have hlen : (encodeCommitRec check [f]).length = recordSize pageSize :=
        encodeRecord_length pageSize f true check hf3
      rw [hlen] at hn
      apply recoverLoop_short
      rw [List.length_take, hlen]
      omega
    | cons g t' =>
      have hrl : (encodeRecord f false 0).length = recordSize pageSize :=
        encodeRecord_length pageSize f false 0 hf3
      show recoverLoop pageSize
        ((encodeRecord f false 0 ++ encodeCommitRec check (g :: t')).take n) P R
          = R
      by_cases hcase : n < recordSize pageSize
      · apply recoverLoop_short
        rw [List.length_take]
        omega
      · have hn' : n - recordSize pageSize
            < (encodeCommitRec check (g :: t')).length := by
          have hlen2 : (encodeCommitRec check (f :: g :: t')).length
              = recordSize pageSize + (encodeCommitRec check (g :: t')).length := by
            rw [show encodeCommitRec check (f :: g :: t')
              = encodeRecord f false 0 ++ encodeCommitRec check (g :: t')
              from rfl, List.length_append, hrl]
          rw [hlen2] at hn
          omega
        rw [List.take_append_eq_append_take,
          List.take_of_length_le (by omega : (encodeRecord f false 0).length ≤ n),
          hrl, recoverLoop_record_plain pageSize f _ P R hf1 hf2 hf3]
        exact ih (fun x hx => hwf x (List.mem_cons_of_mem f hx)) check hck
          (n - recordSize pageSize) hn' (P ++ [f]) R

theorem recoverLoop_encodeWal_take (pageSize : Nat) :
    ∀ commits : List (List Frame), (∀ c ∈ commits, wfCommit pageSize c) →
    ∀ (n : Nat) (R : List Frame),
      recoverLoop pageSize ((encodeWal commits).take n) [] R =
        R ++ (commitsWithin commits n).flatten := by
  intro commits
  induction commits with
  | nil =>
    intro _ n R
    rw [show encodeWal [] = [] from rfl, List.take_nil,
      recoverLoop_short pageSize [] [] R
        (by simp only [List.length_nil, recordSize]; omega)]
    simp [commitsWithin]
  | cons c cs ih =>
    intro hwf n R
    obtain ⟨hne, hcwf⟩ := hwf c (List.mem_cons_self c cs)
    rw [show encodeWal (c :: cs) = encodeCommit c ++ encodeWal cs from rfl]
    by_cases hcase : (encodeCommit c).length ≤ n
    · rw [List.take_append_eq_append_take, List.take_of_length_le hcase,
        show commitsWithin (c :: cs) n
          = c :: commitsWithin cs (n - (encodeCommit c).length) from by
          simp [commitsWithin, hcase],
        show encodeCommit c = encodeCommitRec (commitCheckOf c) c from rfl,
        recoverLoop_commitRec pageSize c hne hcwf [] R _
          (commitCheckOf c) (by simp),
        ih (fun x hx => hwf x (List.mem_cons_of_mem c hx)) _ (R ++ ([] ++ c))]
      simp [List.append_assoc]
    · have hlt : n < (encodeCommit c).length := by omega
      rw [List.take_append_eq_append_take,
        show n - (encodeCommit c).length = 0 from by omega, List.take_zero,
        List.append_nil,
        show encodeCommit c = encodeCommitRec (commitCheckOf c) c from rfl,
        recoverLoop_truncated pageSize c hcwf (commitCheckOf c) (checksum_lt _)
          n hlt [] R,
        show commitsWithin (c :: cs) n = [] from by simp [commitsWithin, hcase]]
      simp

/-- C6: `appendFrames` is atomic and crash recovery is exact: recovering the
complete WAL file yields every frame of every commit, and recovering any
truncation of the file yields exactly the frames of the commits whose
complete, checksum-verified encodings (payload frames plus trailing commit
marker) lie within the kept prefix — a commit cut anywhere before the end of
its marker record contributes no frame at all, and no partial frame
survives. -/
theorem appendFrames_atomic_recovery (pageSize : Nat)
    (commits : List (List Frame))
    (hwf : ∀ c ∈ commits, wfCommit pageSize c) :
    recoverWal pageSize (encodeWal commits) = commits.flatten ∧
    ∀ n, recoverWal pageSize ((encodeWal commits).take n) =
      (commitsWithin commits n).flatten := by
  constructor
  · have h := recoverLoop_encodeWal pageSize commits hwf []
    simpa [recoverWal] using h
  · intro n
    have h := recoverLoop_encodeWal_take pageSize commits hwf n []
    simpa [recoverWal] using h

/-- Witness for C6: two commits (one frame for page 0, then frames for
pages 0 and 1) with page size 1; full recovery returns all three frames. -/
theorem appendFrames_atomic_recovery_witness :
    recoverWal 1 (encodeWal [[⟨0, 1, [65]⟩], [⟨0, 2, [66]⟩, ⟨1, 2, [67]⟩]]) =
      [⟨0, 1, [65]⟩, ⟨0, 2, [66]⟩, ⟨1, 2, [67]⟩] :=
  (appendFrames_atomic_recovery 1 [[⟨0, 1, [65]⟩], [⟨0, 2, [66]⟩, ⟨1, 2, [67]⟩]]
    (by decide)).1

end SpecModel

namespace CSQLiteShim

/-- C1: for every database handle, when compiled against SQLite 3.29.0 or
newer, `disableDoubleQuotedStringLiterals` sets both the DQS_DDL and DQS_DML
flags to 0 and `enableDoubleQuotedStringLiterals` sets both to 1, each
wrapper being exactly the two pass-through `sqlite3_db_config` calls the
source performs and nothing else. -/
theorem dqs_toggles_set_both_flags (v : Nat) (db : DbState)
    (hv : DQS_VERSION ≤ v) :
    (disableDoubleQuotedStringLiterals v db).dqs_ddl = 0 ∧
    (disableDoubleQuotedStringLiterals v db).dqs_dml = 0 ∧
    (enableDoubleQuotedStringLiterals v db).dqs_ddl = 1 ∧
    (enableDoubleQuotedStringLiterals v db).dqs_dml = 1 ∧
    disableDoubleQuotedStringLiterals v db =
      (sqlite3_db_config (sqlite3_db_config db SQLITE_DBCONFIG_DQS_DDL 0).1
        SQLITE_DBCONFIG_DQS_DML 0).1 ∧
    enableDoubleQuotedStringLiterals v db =
      (sqlite3_db_config (sqlite3_db_config db SQLITE_DBCONFIG_DQS_DDL 1).1
        SQLITE_DBCONFIG_DQS_DML 1).1 := by
  simp [disableDoubleQuotedStringLiterals, enableDoubleQuotedStringLiterals,
    sqlite3_db_config, SQLITE_DBCONFIG_DQS_DDL, SQLITE_DBCONFIG_DQS_DML, hv]

/-- Witness for C1 at version 3.29.0 and a handle with both flags at 1. -/
theorem dqs_toggles_set_both_flags_witness :
    (disableDoubleQuotedStringLiterals 3029000 ⟨1, 1, [], []⟩).dqs_ddl = 0 :=
  (dqs_toggles_set_both_flags 3029000 ⟨1, 1, [], []⟩ (by decide)).1

/-- C2: `registerErrorLogCallback(cb)` is the single pass-through call
`sqlite3_config(SQLITE_CONFIG_LOG, cb, 0)` with its result code discarded,
and when that call is accepted (library not yet initialized) the callback
becomes the registered error-log callback. -/
theorem registerErrorLogCallback_passthrough (g : GlobalConfig) (cb : Option Nat) :
    registerErrorLogCallback g cb = (sqlite3_config_log g cb 0).1 ∧
    (g.isInit = false →
      (registerErrorLogCallback g cb).logCb = cb ∧
      (registerErrorLogCallback g cb).logArg = 0) := by
  refine ⟨rfl, fun h => ?_⟩
  simp [registerErrorLogCallback, sqlite3_config_log, h]

/-- C3: the DQS toggles change only the double-quoted-string-literal parsing
flags — page-store and WAL state of the handle are untouched — and when
compiled against SQLite older than 3.29.0 both wrappers are exact no-ops. -/
theorem dqs_toggles_frame (v : Nat) (db : DbState) :
    (disableDoubleQuotedStringLiterals v db).pageStore = db.pageStore ∧
    (disableDoubleQuotedStringLiterals v db).walFile = db.walFile ∧
    (enableDoubleQuotedStringLiterals v db).pageStore = db.pageStore ∧
    (enableDoubleQuotedStringLiterals v db).walFile = db.walFile ∧
    (v < DQS_VERSION →
      disableDoubleQuotedStringLiterals v db = db ∧
      enableDoubleQuotedStringLiterals v db = db) := by
  by_cases hv : DQS_VERSION ≤ v <;>
    simp [disableDoubleQuotedStringLiterals, enableDoubleQuotedStringLiterals,
      sqlite3_db_config, SQLITE_DBCONFIG_DQS_DDL, SQLITE_DBCONFIG_DQS_DML, hv]

/-- C4: with `SQLITE_ENABLE_SNAPSHOT` undefined the shim declares, without
defining, exactly the five snapshot operations (get, open, cmp, free,
recover) together with the opaque 48-byte `sqlite3_snapshot` struct; with
the macro defined it contributes no snapshot declarations. -/
theorem snapshot_decl_surface :
    shimSnapshotDecls true = [] ∧
    shimSnapshotDecls false =
      [ ShimDecl.snapshotStruct 48,
        ShimDecl.functionDecl "sqlite3_snapshot_get" false,
        ShimDecl.functionDecl "sqlite3_snapshot_open" false,
        ShimDecl.functionDecl "sqlite3_snapshot_free" false,
        ShimDecl.functionDecl "sqlite3_snapshot_cmp" false,
        ShimDecl.functionDecl "sqlite3_snapshot_recover" false ] ∧
    (∀ n : String, ShimDecl.functionDecl n true ∉ shimSnapshotDecls false) ∧
    (shimSnapshotFunctionNames false).Perm
      [ "sqlite3_snapshot_get", "sqlite3_snapshot_open", "sqlite3_snapshot_cmp",
        "sqlite3_snapshot_free", "sqlite3_snapshot_recover" ] := by
  refine ⟨rfl, rfl, ?_, ?_⟩
  · intro n
    simp [shimSnapshotDecls]
  · show ("sqlite3_snapshot_get" :: "sqlite3_snapshot_open" ::
      "sqlite3_snapshot_free" :: "sqlite3_snapshot_cmp" ::
      ["sqlite3_snapshot_recover"]).Perm _
    exact List.Perm.cons _ (List.Perm.cons _ (List.Perm.swap _ _ _))

/-- C9: `registerErrorLogCallback` hard-codes `0` (NULL) as the context
argument of `sqlite3_config(SQLITE_CONFIG_LOG, ...)`, so once registration
is accepted every delivery to the error-log callback carries a NULL `pArg`. -/
theorem errorLog_context_always_null (g : GlobalConfig) (cb : Option Nat)
    (hg : g.isInit = false) :
    (registerErrorLogCallback g cb).logArg = 0 ∧
    ∀ (e : Int) (m : String) (ev : LogEvent),
      invokeErrorLog (registerErrorLogCallback g cb) e m = some ev →
        ev.pArg = 0 := by
  constructor
  · simp [registerErrorLogCallback, sqlite3_config_log, hg]
  · intro e m ev hev
    simp [invokeErrorLog, registerErrorLogCallback, sqlite3_config_log, hg] at hev
    rcases hev with ⟨-, rfl⟩
    rfl

/-- Witness for C9: an uninitialized library, a callback, a delivered event. -/
theorem errorLog_context_always_null_witness :
    (registerErrorLogCallback ⟨false, none, 7⟩ (some 1)).logArg = 0 :=
  (errorLog_context_always_null ⟨false, none, 7⟩ (some 1) rfl).1

/-- C10: all three wrappers return `void`, i.e. only the updated state — each
equals the first projection of the underlying `sqlite3_config` /
`sqlite3_db_config` calls, whose integer result codes are discarded; and
there is a concrete input on which the underlying call fails
(`SQLITE_MISUSE`) while the wrapper surfaces nothing. -/
theorem wrappers_discard_result_codes :
    (∀ (g : GlobalConfig) (cb : Option Nat),
      registerErrorLogCallback g cb = (sqlite3_config_log g cb 0).1) ∧
    (∀ (v : Nat) (db : DbState), DQS_VERSION ≤ v →
      disableDoubleQuotedStringLiterals v db =
        (sqlite3_db_config (sqlite3_db_config db SQLITE_DBCONFIG_DQS_DDL 0).1
          SQLITE_DBCONFIG_DQS_DML 0).1 ∧
      enableDoubleQuotedStringLiterals v db =
        (sqlite3_db_config (sqlite3_db_config db SQLITE_DBCONFIG_DQS_DDL 1).1
          SQLITE_DBCONFIG_DQS_DML 1).1) ∧
    (∃ (g : GlobalConfig) (cb : Option Nat),
      (sqlite3_config_log g cb 0).2 ≠ SQLITE_OK ∧
      registerErrorLogCallback g cb = g) := by
  refine ⟨fun g cb => rfl, fun v db hv => ?_, ⟨⟨true, none, 0⟩, some 1, ?_, ?_⟩⟩
  · constructor <;>
      simp [disableDoubleQuotedStringLiterals, enableDoubleQuotedStringLiterals, hv]
  · decide
  · rfl

end CSQLiteShim

